import Mathlib

/-!
Verification of the Koch Morse trainer's timing / synthesis / content engine.

Shallow embedding of `Create_Koch_Morse_Training_Materials.py`
(classes `MorseCodeGenerator` and `KochMethodTrainer`).

Modelling conventions:
* Python floats are modelled as exact rationals (`ℚ`); the numeric literals of
  the source (`1.2`, `0.005`, `0.8`, `0.15`, ...) are exact binary-free decimals
  and are transcribed as the corresponding rationals.
* `int(x)` (Python / numpy truncation toward zero) is `pyTrunc`.
* An audio sample is a pair `(env, cyc) : ℚ × ℚ` denoting the real value
  `env * sin (2 * π * cyc)`: `env` is the (rational) fade envelope factor and
  `cyc = tone_freq * t` the number of sine cycles elapsed at the sample's time
  `t`.  A silence sample is `(0, 0)`.  This keeps every definition executable
  while recording the exact phase and envelope produced by the source.
* The pseudorandom source (`random.choice` / `random.choices`) is modelled by
  an oracle `rng : ℕ → ℕ`; draw number `t` picks list element
  `rng t % length`, so every element is reachable and draws are with
  replacement from the full list.
* Division by zero, which raises `ZeroDivisionError` in Python, is made
  explicit: the constructor returns `Except String MorseGen` and `save_audio`
  returns a `SaveResult` with a `divByZero` outcome (numpy emits a warning and
  produces NaN there; either way the code attempts the division).
-/

/-- Python's `int(·)` applied to a float/rational: truncation toward zero. -/
def pyTrunc (q : ℚ) : ℤ := if 0 ≤ q then ⌊q⌋ else ⌈q⌉

/-- Rounding to the nearest integer (half away from zero on the positives);
used only to state the spec's `round(sample_rate·duration)` convention. -/
def nearestRound (q : ℚ) : ℤ := ⌊q + 1/2⌋

/-- Sample count `int(sample_rate * duration)` (`numpy` array length). -/
def numSamples (rate dur : ℚ) : ℕ := (pyTrunc (rate * dur)).toNat

/-- The timing state a `MorseCodeGenerator` instance carries after `__init__`. -/
structure MorseGen where
  char_wpm : ℤ
  effective_wpm : ℤ
  tone_freq : ℚ
  sample_rate : ℚ
  dit_time : ℚ
  dah_time : ℚ
  element_space_time : ℚ
  char_space_time : ℚ
  word_space_time : ℚ
  deriving DecidableEq, Repr

/-- Model of `MorseCodeGenerator.__init__` (lines 45–111): computes
`dit_time = 1.2 / char_wpm`, `dah = 3·dit`, `element_space = dit`, and the
Farnsworth `char_space`/`word_space` when `effective_wpm < char_wpm`,
otherwise the standard `3·dit` / `7·dit`.  The source performs no parameter
validation; the only failures are Python `ZeroDivisionError`s, reproduced
here as `Except.error`. -/
def mkMorseGen (char_wpm effective_wpm : ℤ) (tone_freq sample_rate : ℚ) :
    Except String MorseGen :=
  if char_wpm = 0 then .error "ZeroDivisionError" else
  let dit : ℚ := (6/5) / (char_wpm : ℚ)
  if effective_wpm < char_wpm then
    if effective_wpm = 0 then .error "ZeroDivisionError" else
    let standard_char_space : ℚ := 3 * dit
    let standard_word_space : ℚ := 7 * dit
    let char_time_per_word : ℚ := 60 / (char_wpm : ℚ)
    let target_time_per_word : ℚ := 60 / (effective_wpm : ℚ)
    let extra_time : ℚ := target_time_per_word - char_time_per_word
    let extra_per_unit : ℚ := extra_time / 19
    .ok { char_wpm := char_wpm, effective_wpm := effective_wpm,
          tone_freq := tone_freq, sample_rate := sample_rate,
          dit_time := dit, dah_time := 3 * dit, element_space_time := dit,
          char_space_time := standard_char_space + 3 * extra_per_unit,
          word_space_time := standard_word_space + 7 * extra_per_unit }
  else
    .ok { char_wpm := char_wpm, effective_wpm := effective_wpm,
          tone_freq := tone_freq, sample_rate := sample_rate,
          dit_time := dit, dah_time := 3 * dit, element_space_time := dit,
          char_space_time := 3 * dit, word_space_time := 7 * dit }

/-- The `morse_code` dict of the source (lines 67–79): 41 live entries plus
the space “code”. -/
def morse_code : List (Char × List Char) :=
  [('K', "-.-".toList),   ('M', "--".toList),    ('U', "..-".toList),
   ('R', ".-.".toList),   ('E', ".".toList),     ('S', "...".toList),
   ('N', "-.".toList),    ('A', ".-".toList),    ('P', ".--.".toList),
   ('T', "-".toList),     ('L', ".-..".toList),  ('W', ".--".toList),
   ('I', "..".toList),    ('.', ".-.-.-".toList),('J', ".---".toList),
   ('Z', "--..".toList),  ('=', "-...-".toList), ('F', "..-.".toList),
   ('O', "---".toList),   ('Y', "-.--".toList),  (',', "--..--".toList),
   ('V', "...-".toList),  ('G', "--.".toList),   ('5', ".....".toList),
   ('/', "-..-.".toList), ('Q', "--.-".toList),  ('9', "----.".toList),
   ('2', "..---".toList), ('H', "....".toList),  ('3', "...--".toList),
   ('8', "---..".toList), ('B', "-...".toList),  ('?', "..--..".toList),
   ('4', "....-".toList), ('7', "--...".toList), ('C', "-.-.".toList),
   ('1', ".----".toList), ('D', "-..".toList),   ('6', "-....".toList),
   ('0', "-----".toList), ('X', "-..-".toList),  (' ', " ".toList)]

/-- Dict membership / lookup `self.morse_code[char]`. -/
def morseLookup (c : Char) : Option (List Char) :=
  (morse_code.find? (fun p => p.1 = c)).map (fun p => p.2)

/-- One audio sample `(env, cyc)`, standing for the value
`env * sin (2 * π * cyc)`; see the header comment. -/
abbrev Sample : Type := ℚ × ℚ

/-- An audio buffer (numpy float array of samples). -/
abbrev Buffer : Type := List Sample

/-- The fade envelope of `generate_tone` (lines 130–139) at index `k` of an
`N`-sample buffer with fade length `F`: when `N > 2·F` the first `F` samples
are scaled by `np.linspace(0,1,F)` (value `k/(F-1)`, a single `0.0` when
`F = 1`), the last `F` by `np.linspace(1,0,F)`, and otherwise no fade is
applied. -/
def fadeEnv (N F k : ℕ) : ℚ :=
  if 2 * F < N then
    if k < F then (if F = 1 then 0 else (k : ℚ) / ((F - 1 : ℕ) : ℚ))
    else if N - F ≤ k then
      (if F = 1 then 1 else 1 - ((k - (N - F) : ℕ) : ℚ) / ((F - 1 : ℕ) : ℚ))
    else 1
  else 1

/-- Model of `MorseCodeGenerator.generate_tone` (lines 115–141): `int(sample_rate ·
duration)` samples; sample `k` sits at time `t_k = k·duration/N`
(`np.linspace(0, duration, N, False)`), has value `sin(2π·tone_freq·t_k)`
(cycle count `tone_freq·t_k`) and is scaled by the fade envelope. -/
def generate_tone (g : MorseGen) (dur : ℚ) : Buffer :=
  let N := numSamples g.sample_rate dur
  let F := numSamples g.sample_rate (1/200)
  (List.range N).map (fun k => (fadeEnv N F k, g.tone_freq * ((k : ℚ) * dur / (N : ℚ))))

/-- Model of `MorseCodeGenerator.generate_silence` (lines 143–153):
`np.zeros(int(sample_rate * duration))`. -/
def generate_silence (g : MorseGen) (dur : ℚ) : Buffer :=
  List.replicate (numSamples g.sample_rate dur) ((0 : ℚ), (0 : ℚ))

/-- The per-symbol branch of the loop in `char_to_morse_audio`
(lines 174–178): a dit tone for `'.'`, a dah tone for `'-'`, nothing for any
other symbol (only the space “code” hits that case). -/
def symbolAudio (g : MorseGen) (s : Char) : Buffer :=
  if s = '.' then generate_tone g g.dit_time
  else if s = '-' then generate_tone g g.dah_time
  else []

/-- The loop of `char_to_morse_audio` (lines 174–182): element audio with an
`element_space_time` gap after every symbol except the last. -/
def morseElems (g : MorseGen) : List Char → Buffer
  | [] => []
  | [s] => symbolAudio g s
  | s :: t :: rest =>
      symbolAudio g s ++ generate_silence g g.element_space_time ++
        morseElems g (t :: rest)

/-- Model of `MorseCodeGenerator.char_to_morse_audio` (lines 157–184): empty buffer for
characters outside the table, otherwise the dit/dah rendering. -/
def char_to_morse_audio (g : MorseGen) (c : Char) : Buffer :=
  match morseLookup c with
  | none => []
  | some m => morseElems g m

/-- The body of iteration `i` of the loop in `text_to_morse_audio`
(lines 201–210): a word gap for a space, otherwise the character's audio
followed by a `char_space_time` gap when `i < len(text)-1` and
`text[i+1] != ' '`. -/
def textChunk (g : MorseGen) (text : List Char) (i : ℕ) : Buffer :=
  let c := text.getD i ' '
  if c = ' ' then generate_silence g g.word_space_time
  else
    char_to_morse_audio g c ++
      (if i + 1 < text.length ∧ text.getD (i + 1) ' ' ≠ ' ' then
        generate_silence g g.char_space_time
      else [])

/-- Model of `MorseCodeGenerator.text_to_morse_audio` (lines 186–214): 0.8 s lead-in,
the indexed loop over the text, 1.2 s tail. -/
def text_to_morse_audio (g : MorseGen) (text : List Char) : Buffer :=
  generate_silence g (4/5) ++
    ((List.range text.length).map (textChunk g text)).flatten ++
    generate_silence g (6/5)

/-- The spec's left-to-right description of `text_to_audio`'s middle section:
a space inserts a word gap; any other character contributes its audio plus a
char gap unless it is last or the next character is a space. -/
def bodySpec (g : MorseGen) : List Char → Buffer
  | [] => []
  | c :: rest =>
      if c = ' ' then generate_silence g g.word_space_time ++ bodySpec g rest
      else
        char_to_morse_audio g c ++
          (match rest with
            | [] => []
            | d :: _ => if d = ' ' then [] else generate_silence g g.char_space_time) ++
          bodySpec g rest

/-- Draw number `t` from the character list: `random.choice` /
`random.choices` return some element of the list, chosen here by the oracle
`rng` (with replacement, the list is never consumed). -/
def drawChar (cl : List Char) (rng : ℕ → ℕ) (t : ℕ) : Char :=
  cl.getD (rng t % cl.length) 'K'

/-- One 5-character group of `generate_pattern` (lines 260–266); group `i`
uses draws `5·i .. 5·i+4`. -/
def patternGroup (cl : List Char) (rng : ℕ → ℕ) (i : ℕ) : List Char :=
  (List.range 5).map (fun j => drawChar cl rng (5 * i + j))

/-- The text built by the loop of `generate_pattern` (lines 256–270):
`text += group; if i < 9: text += ' '` for `i` in `range(10)`. -/
def patternText (cl : List Char) (rng : ℕ → ℕ) : List Char :=
  ((List.range 10).map
    (fun i => patternGroup cl rng i ++ if i < 9 then [' '] else [])).flatten

/-- Model of `MorseCodeGenerator.generate_pattern` (lines 237–273).  `num_chars` and
`weights` are accepted exactly as in the source; neither influences the shape
of the result (`weights` only biases which element each oracle draw returns,
which the oracle already decides). -/
def generate_pattern (g : MorseGen) (cl : List Char) (num_chars : ℕ)
    (weights : Option (List ℚ)) (rng : ℕ → ℕ) : Buffer × List Char :=
  (text_to_morse_audio g (patternText cl rng), patternText cl rng)

/-- Model of `KochMethodTrainer.get_character_weights` (lines 352–396). -/
def get_character_weights (cl : List Char) (mode : String) : Option (List ℚ) :=
  if mode = "uniform" then none
  else if mode = "new_char_focus" then
    some (List.replicate (cl.length - 1) 1 ++ [2])
  else if mode = "gradual" then
    some (List.replicate (cl.length - 1) 1 ++ [3/2])
  else if mode = "difficulty" then
    some (cl.map (fun c => 1 + (((morseLookup c).getD ['.']).length : ℚ) * (3/20)))
  else none

/-- The constant `KochMethodTrainer.KOCH_SEQUENCE` (line 319). -/
def KOCH_SEQUENCE : List Char :=
  "KMURESNAPTLWI.JZ=FOY,VG5/Q92H38B?47C1D60X".toList

/-- The lesson-`n` character set of `create_lessons` (line 487):
`KOCH_SEQUENCE[:lesson_num + 1]`. -/
def lessonChars (n : ℕ) : List Char := KOCH_SEQUENCE.take (n + 1)

/-- Value `np.max(np.abs(audio))` over the buffer handed to `save_audio` (the
buffers written by the program are plain float arrays, modelled as `List ℚ`). -/
def maxAbs : List ℚ → ℚ
  | [] => 0
  | x :: xs => max |x| (maxAbs xs)

/-- Outcome of `save_audio`: skipped (empty buffer, warning printed), a
division by zero (non-empty all-zero buffer reaches
`audio / np.max(np.abs(audio))` with a zero maximum), or the 16-bit samples
written to the file. -/
inductive SaveResult where
  | skipped : SaveResult
  | divByZero : SaveResult
  | written : List ℤ → SaveResult
  deriving DecidableEq, Repr

/-- Model of `MorseCodeGenerator.save_audio` (lines 277–293): skip empty buffers,
otherwise normalize by the maximum absolute value and cast to `np.int16`
(truncation toward zero) after scaling by 32767. -/
def save_audio (audio : List ℚ) : SaveResult :=
  if audio = [] then .skipped
  else
    let m := maxAbs audio
    if m = 0 then .divByZero
    else .written (audio.map (fun x => pyTrunc (x / m * 32767)))

/-- A concrete generator state, as produced by the default constructor call
`MorseCodeGenerator(20, 10, 600, 44100)`; used as the fixture of the
closed-instance checks below. -/
def gExample : MorseGen :=
  { char_wpm := 20, effective_wpm := 10, tone_freq := 600, sample_rate := 44100,
    dit_time := 3/50, dah_time := 9/50, element_space_time := 3/50,
    char_space_time := 9/50 + 9/19, word_space_time := 21/50 + 21/19 }

example : morseLookup 'K' = some ['-', '.', '-'] := by decide
example : morseLookup '#' = none := by decide
example : (mkMorseGen 10 20 600 44100).isOk = true := by decide

/-- C1: Farnsworth timing derivation — for every constructor call with
`0 < effective_wpm < char_wpm` the construction succeeds and the derived
durations are `dit_time = 1.2/char_wpm`,
`char_space_time = 3·dit + 3·((60/effective_wpm − 60/char_wpm)/19)` and
`word_space_time = 7·dit + 7·((60/effective_wpm − 60/char_wpm)/19)`.
The spec's concrete scenario (`char_wpm = 20`, `effective_wpm = 10`) is
checked in the witness below. -/
theorem C1_farnsworth_timing (c e : ℤ) (f sr : ℚ) (he : 0 < e) (hec : e < c) :
    ∃ g, mkMorseGen c e f sr = .ok g ∧
      g.dit_time = (6/5) / (c : ℚ) ∧
      g.char_space_time =
        3 * ((6/5) / (c : ℚ)) + 3 * ((60 / (e : ℚ) - 60 / (c : ℚ)) / 19) ∧
      g.word_space_time =
        7 * ((6/5) / (c : ℚ)) + 7 * ((60 / (e : ℚ) - 60 / (c : ℚ)) / 19) := by
  have hc0 : ¬ c = 0 := by omega
  have he0 : ¬ e = 0 := by omega
  rw [mkMorseGen, if_neg hc0, if_pos hec, if_neg he0]
  exact ⟨_, rfl, rfl, rfl, rfl⟩

/-- Witness for C1: the spec's concrete scenario `char_wpm = 20`,
`effective_wpm = 10` yields `dit_time = 0.06 s`,
`char_space_time = 0.18 + 9/19 s` and `word_space_time = 0.42 + 21/19 s`
(the spec's `≈0.65368 s` and `≈1.52526 s`). -/
theorem C1_farnsworth_timing_witness :
    ∃ g, mkMorseGen 20 10 600 44100 = .ok g ∧
      g.dit_time = 3/50 ∧
      g.char_space_time = 9/50 + 9/19 ∧
      g.word_space_time = 21/50 + 21/19 := by
  obtain ⟨g, hg, h1, h2, h3⟩ :=
    C1_farnsworth_timing 20 10 600 44100 (by norm_num) (by norm_num)
  refine ⟨g, hg, ?_, ?_, ?_⟩
  · rw [h1]; norm_num
  · rw [h2]; norm_num
  · rw [h3]; norm_num

/-- C2 counterexample: the claim says construction fails when
`effective_wpm > char_wpm`, but `MorseCodeGenerator(10, 20, ...)` succeeds —
`__init__` performs no validation and simply takes the non-Farnsworth
branch. -/
theorem C2_validation_cex :
    (mkMorseGen 10 20 600 44100).isOk = true ∧ (10 : ℤ) < 20 := by
  exact ⟨by decide, by decide⟩

/-- C2 (amended): construction never fails with `InvalidParameter`; the only
failures are Python `ZeroDivisionError`s, occurring exactly when
`char_wpm = 0`, or `effective_wpm = 0` with `char_wpm > 0`; for every other
integer parameter pair — including negative speeds and
`effective_wpm > char_wpm` — construction succeeds (deterministically, as a
pure function). -/
theorem C2_validation_free_construction (c e : ℤ) (f sr : ℚ) :
    (mkMorseGen c e f sr).isOk = false ↔ c = 0 ∨ (e = 0 ∧ 0 < c) := by
  rw [mkMorseGen]
  split_ifs with h1 h2 h3
  all_goals simp [Except.isOk, Except.toBool]
  all_goals omega

/-- C5 counterexample: the canonical Koch sequence has 41 symbols, not 43,
so lesson 40's set (the full sequence) is not "the full 43-symbol canonical
sequence" as claimed. -/
theorem C5_lesson_nesting_cex :
    lessonChars 40 = KOCH_SEQUENCE ∧
    (lessonChars 40).length = 41 ∧ ¬ (lessonChars 40).length = 43 := by
  refine ⟨by decide, by decide, by decide⟩

/-- C5 (amended): for every `n` in 1..40 the lesson-`n` character set is the
first `n+1` symbols of the canonical Koch sequence and has `n+1` characters;
each lesson after the first adds exactly one trailing character; lesson 40's
set equals the full **41**-symbol canonical sequence. -/
theorem C5_lesson_nesting (n : ℕ) (hn1 : 1 ≤ n) (hn2 : n ≤ 40) :
    lessonChars n = KOCH_SEQUENCE.take (n + 1) ∧
    (lessonChars n).length = n + 1 ∧
    (2 ≤ n → ∃ ch, lessonChars n = lessonChars (n - 1) ++ [ch]) ∧
    lessonChars 40 = KOCH_SEQUENCE := by
  have hlen : KOCH_SEQUENCE.length = 41 := by decide
  refine ⟨rfl, ?_, ?_, by decide⟩
  · simp [lessonChars, List.length_take, hlen]
    omega
  · intro h2
    have hn : n < KOCH_SEQUENCE.length := by omega
    have h1' : n - 1 + 1 = n := by omega
    refine ⟨KOCH_SEQUENCE.get ⟨n, hn⟩, ?_⟩
    rw [lessonChars, lessonChars, h1', List.take_succ,
      List.getElem?_eq_getElem hn]
    rfl

/-- C8: weight-vector construction — `new_char_focus` gives the last
character weight 2 and every other character weight 1 (so the last entry is
exactly 2× every other entry), `gradual` gives 1.5 versus 1, `uniform`
returns `None` (no weighting, i.e. equal weights), and `difficulty` assigns
every character `1.0 + 0.15 · len(morse_code_for(char))`, which is strictly
increasing in the code length with ties exactly for equal-length codes. -/
theorem C8_weight_vectors (cl : List Char) (hne : cl ≠ []) :
    (∃ w, get_character_weights cl "new_char_focus" = some w ∧
        w.length = cl.length ∧ w.getLast? = some 2 ∧
        ∀ x ∈ w.dropLast, x = 1) ∧
    (∃ w, get_character_weights cl "gradual" = some w ∧
        w.length = cl.length ∧ w.getLast? = some (3/2) ∧
        ∀ x ∈ w.dropLast, x = 1) ∧
    get_character_weights cl "uniform" = none ∧
    (∃ w, get_character_weights cl "difficulty" = some w ∧
        w.length = cl.length ∧
        (∀ i, i < cl.length →
          w.getD i 0 =
            1 + (((morseLookup (cl.getD i ' ')).getD ['.']).length : ℚ) * (3/20)) ∧
        (∀ i j, i < cl.length → j < cl.length →
          ((((morseLookup (cl.getD i ' ')).getD ['.']).length <
              ((morseLookup (cl.getD j ' ')).getD ['.']).length →
            w.getD i 0 < w.getD j 0) ∧
          (w.getD i 0 = w.getD j 0 ↔
            ((morseLookup (cl.getD i ' ')).getD ['.']).length =
              ((morseLookup (cl.getD j ' ')).getD ['.']).length)))) := by
  have hpos : 0 < cl.length := List.length_pos.mpr hne
  have hrep : ∀ v : ℚ,
      (List.replicate (cl.length - 1) (1:ℚ) ++ [v]).length = cl.length ∧
      (List.replicate (cl.length - 1) (1:ℚ) ++ [v]).getLast? = some v ∧
      ∀ x ∈ (List.replicate (cl.length - 1) (1:ℚ) ++ [v]).dropLast, x = 1 := by
    intro v
    refine ⟨?_, List.getLast?_concat _, ?_⟩
    · simp [List.length_replicate]
      omega
    · intro x hx
      rw [List.dropLast_concat] at hx
      exact List.eq_of_mem_replicate hx
  have hformula : ∀ i, i < cl.length →
      ((cl.map (fun c => 1 + (((morseLookup c).getD ['.']).length : ℚ) * (3/20))).getD i 0 =
        1 + (((morseLookup (cl.getD i ' ')).getD ['.']).length : ℚ) * (3/20)) := by
    intro i hi
    rw [List.getD_eq_getElem?_getD, List.getElem?_map, List.getElem?_eq_getElem hi]
    rw [List.getD_eq_getElem?_getD, List.getElem?_eq_getElem hi]
    rfl
  refine ⟨⟨_, rfl, (hrep 2).1, (hrep 2).2.1, (hrep 2).2.2⟩,
          ⟨_, rfl, (hrep (3/2)).1, (hrep (3/2)).2.1, (hrep (3/2)).2.2⟩,
          rfl,
          ⟨_, rfl, by simp [List.length_map], hformula, ?_⟩⟩
  intro i j hi hj
  rw [hformula i hi, hformula j hj]
  constructor
  · intro hlt
    have hq : ((((morseLookup (cl.getD i ' ')).getD ['.']).length : ℚ)) <
        (((morseLookup (cl.getD j ' ')).getD ['.']).length : ℚ) := by
      exact_mod_cast hlt
    linarith
  · constructor
    · intro heq
      have hq : ((((morseLookup (cl.getD i ' ')).getD ['.']).length : ℚ)) =
          (((morseLookup (cl.getD j ' ')).getD ['.']).length : ℚ) := by
        linarith
      exact_mod_cast hq
    · intro heq
      rw [heq]

/-- Witness for C8, on the lesson-1 character set `KM`: `uniform` yields no
weights and `new_char_focus` yields `[1, 2]` — last weight 2, the rest 1. -/
theorem C8_weight_vectors_witness :
    get_character_weights ['K', 'M'] "uniform" = none ∧
    (∃ w, get_character_weights ['K', 'M'] "new_char_focus" = some w ∧
        w.length = (['K', 'M'] : List Char).length ∧ w.getLast? = some 2 ∧
        ∀ x ∈ w.dropLast, x = 1) :=
  ⟨(C8_weight_vectors ['K', 'M'] (by decide)).2.2.1,
   (C8_weight_vectors ['K', 'M'] (by decide)).1⟩

theorem drawChar_mem (cl : List Char) (rng : ℕ → ℕ) (t : ℕ) (hne : cl ≠ []) :
    drawChar cl rng t ∈ cl := by
  have hpos : 0 < cl.length := List.length_pos.mpr hne
  have hlt : rng t % cl.length < cl.length := Nat.mod_lt _ hpos
  rw [drawChar, List.getD_eq_getElem?_getD, List.getElem?_eq_getElem hlt]
  exact List.getElem_mem hlt

theorem patternGroup_length (cl : List Char) (rng : ℕ → ℕ) (i : ℕ) :
    (patternGroup cl rng i).length = 5 := by
  simp [patternGroup]

theorem patternText_length (cl : List Char) (rng : ℕ → ℕ) :
    (patternText cl rng).length = 59 := by
  rw [patternText, List.length_flatten, List.map_map]
  rw [List.map_congr_left (g := fun i => if i < 9 then 6 else 5) ?_]
  · decide
  · intro i _
    simp [patternGroup_length, Function.comp]
    by_cases h : i < 9 <;> simp [h]

theorem patternText_mem (cl : List Char) (rng : ℕ → ℕ) (hne : cl ≠ []) :
    ∀ c ∈ patternText cl rng, c ≠ ' ' → c ∈ cl := by
  intro c hc hcs
  rw [patternText, List.mem_flatten] at hc
  obtain ⟨chunk, hchunk, hcchunk⟩ := hc
  rw [List.mem_map] at hchunk
  obtain ⟨i, _, rfl⟩ := hchunk
  rcases List.mem_append.mp hcchunk with h | h
  · rw [patternGroup, List.mem_map] at h
    obtain ⟨j, _, rfl⟩ := h
    exact drawChar_mem cl rng _ hne
  · by_cases h9 : i < 9 <;> simp [h9] at h
    exact absurd h hcs

theorem patternText_count (cl : List Char) (rng : ℕ → ℕ) (hne : cl ≠ [])
    (hsp : ' ' ∉ cl) : (patternText cl rng).count ' ' = 9 := by
  rw [patternText, List.count_flatten, List.map_map]
  rw [List.map_congr_left (g := fun i => if i < 9 then 1 else 0) ?_]
  · decide
  · intro i _
    have hg : (patternGroup cl rng i).count ' ' = 0 := by
      rw [List.count_eq_zero]
      intro hmem
      exact hsp (by
        rw [patternGroup, List.mem_map] at hmem
        obtain ⟨j, _, hj⟩ := hmem
        rw [← hj] at hsp ⊢
        exact drawChar_mem cl rng _ hne)
    simp [Function.comp, List.count_append, hg]
    by_cases h : i < 9 <;> simp [h, List.count_cons]

theorem patternText_countP (cl : List Char) (rng : ℕ → ℕ) (hne : cl ≠ [])
    (hsp : ' ' ∉ cl) :
    (patternText cl rng).countP (fun c => c != ' ') = 50 := by
  rw [patternText, List.countP_flatten, List.map_map]
  rw [List.map_congr_left (g := fun i => 5) ?_]
  · decide
  · intro i _
    have hg : (patternGroup cl rng i).countP (fun c => c != ' ') = 5 := by
      rw [show (5:ℕ) = (patternGroup cl rng i).length from
        (patternGroup_length cl rng i).symm]
      rw [List.countP_eq_length]
      intro a ha
      rw [patternGroup, List.mem_map] at ha
      obtain ⟨j, _, rfl⟩ := ha
      have : drawChar cl rng (5 * i + j) ∈ cl := drawChar_mem cl rng _ hne
      simp only [bne_iff_ne, ne_eq]
      intro hEq
      rw [hEq] at this
      exact hsp this
    simp [Function.comp, List.countP_append, hg]

theorem patternText_last (cl : List Char) (rng : ℕ → ℕ) (hne : cl ≠ []) :
    ∃ c, (patternText cl rng).getLast? = some c ∧ c ∈ cl := by
  refine ⟨drawChar cl rng (5 * 9 + 4), ?_, drawChar_mem cl rng _ hne⟩
  have h1 : patternText cl rng =
      ((List.range 9).map
        (fun i => patternGroup cl rng i ++ if i < 9 then [' '] else [])).flatten
        ++ patternGroup cl rng 9 := by
    rw [patternText, show (10:ℕ) = 9 + 1 from rfl, List.range_succ, List.map_append]
    simp
  rw [h1, List.getLast?_append_of_ne_nil]
  · rw [patternGroup, show List.range 5 = [0,1,2,3,4] from rfl]
    simp [List.getLast?_cons_cons]
  · rw [patternGroup, show List.range 5 = [0,1,2,3,4] from rfl]
    simp

theorem generate_tone_length (g : MorseGen) (dur : ℚ) :
    (generate_tone g dur).length = numSamples g.sample_rate dur := by
  simp [generate_tone]

theorem generate_tone_getD (g : MorseGen) (dur : ℚ) (k : ℕ)
    (hk : k < numSamples g.sample_rate dur) :
    (generate_tone g dur).getD k (0, 0) =
      (fadeEnv (numSamples g.sample_rate dur) (numSamples g.sample_rate (1/200)) k,
       g.tone_freq * ((k : ℚ) * dur / ((numSamples g.sample_rate dur : ℕ) : ℚ))) := by
  rw [generate_tone, List.getD_eq_getElem?_getD, List.getElem?_map,
    List.getElem?_range hk]
  rfl

/-- C4 counterexample: the claim's `round(sample_rate·duration)` sample count
is wrong — the code truncates (`int(...)`): at `duration = 27/441000` s and
44100 Hz the product is 2.7, the buffer has 2 samples while rounding gives 3.
Also, at a buffer of exactly twice the fade length (N = 440 = 2·220) the code
applies no fade (first envelope factor is 1), whereas the claim applies the
fade to every buffer not strictly shorter than twice the fade length. -/
theorem C4_tone_shape_cex :
    (generate_tone gExample (27/441000)).length = 2 ∧
    nearestRound (gExample.sample_rate * (27/441000)) = 3 ∧
    ((2 : ℕ) ≠ 3) ∧
    numSamples gExample.sample_rate (22/2205) =
      2 * numSamples gExample.sample_rate (1/200) ∧
    ((generate_tone gExample (22/2205)).getD 0 (0, 0)).1 = 1 := by
  have hF : numSamples gExample.sample_rate (1/200) = 220 := by
    norm_num [gExample, numSamples, pyTrunc]
    decide
  have hN1 : numSamples gExample.sample_rate (27/441000) = 2 := by
    norm_num [gExample, numSamples, pyTrunc]
    decide
  have hN2 : numSamples gExample.sample_rate (22/2205) = 440 := by
    norm_num [gExample, numSamples, pyTrunc]
    decide
  refine ⟨?_, ?_, by decide, ?_, ?_⟩
  · rw [generate_tone_length, hN1]
  · norm_num [nearestRound, gExample]
  · rw [hN2, hF]
  · rw [generate_tone_getD gExample (22/2205) 0 (by rw [hN2]; norm_num), hN2, hF]
    norm_num [fadeEnv]

/-- C4 (amended): for every duration, `generate_tone` returns
`int(sample_rate·duration)` samples (truncation toward zero, not rounding to
nearest) of a sine at `tone_freq` with phase starting at 0 (sample `k` sits
at `tone_freq·k·duration/N` cycles); the linear 5 ms fades
(`int(sample_rate·0.005)` samples each) are applied only when the buffer is
strictly longer than twice the fade length — in particular no fade at
exactly twice the fade length — and `generate_silence` returns an all-zero
buffer under the same (truncating) sample-count convention. -/
theorem C4_tone_shape (g : MorseGen) (dur : ℚ) :
    (generate_tone g dur).length = numSamples g.sample_rate dur ∧
    (generate_silence g dur).length = numSamples g.sample_rate dur ∧
    (∀ s ∈ generate_silence g dur, s = (0, 0)) ∧
    (∀ k, k < numSamples g.sample_rate dur →
      (generate_tone g dur).getD k (0, 0) =
        (fadeEnv (numSamples g.sample_rate dur) (numSamples g.sample_rate (1/200)) k,
         g.tone_freq * ((k : ℚ) * dur / ((numSamples g.sample_rate dur : ℕ) : ℚ)))) ∧
    (0 < numSamples g.sample_rate dur →
      ((generate_tone g dur).getD 0 (0, 0)).2 = 0) ∧
    (numSamples g.sample_rate dur ≤ 2 * numSamples g.sample_rate (1/200) →
      ∀ k, k < numSamples g.sample_rate dur →
        ((generate_tone g dur).getD k (0, 0)).1 = 1) ∧
    (2 * numSamples g.sample_rate (1/200) < numSamples g.sample_rate dur →
      2 ≤ numSamples g.sample_rate (1/200) →
      ∀ k, k < numSamples g.sample_rate dur →
        ((generate_tone g dur).getD k (0, 0)).1 =
          (if k < numSamples g.sample_rate (1/200) then
            (k : ℚ) / ((numSamples g.sample_rate (1/200) - 1 : ℕ) : ℚ)
          else if numSamples g.sample_rate dur - numSamples g.sample_rate (1/200) ≤ k then
            1 - ((k - (numSamples g.sample_rate dur -
                  numSamples g.sample_rate (1/200)) : ℕ) : ℚ) /
                ((numSamples g.sample_rate (1/200) - 1 : ℕ) : ℚ)
          else 1)) := by
  refine ⟨generate_tone_length g dur, by simp [generate_silence], ?_, ?_, ?_, ?_, ?_⟩
  · intro s hs
    exact List.eq_of_mem_replicate hs
  · intro k hk
    exact generate_tone_getD g dur k hk
  · intro h0
    rw [generate_tone_getD g dur 0 h0]
    simp
  · intro hno k hk
    rw [generate_tone_getD g dur k hk]
    show fadeEnv _ _ k = 1
    rw [fadeEnv, if_neg (by omega)]
  · intro h2F hF2 k hk
    rw [generate_tone_getD g dur k hk]
    show fadeEnv _ _ k = _
    rw [fadeEnv, if_pos h2F]
    by_cases hkF : k < numSamples g.sample_rate (1/200)
    · rw [if_pos hkF, if_neg (by omega), if_pos hkF]
    · rw [if_neg hkF, if_neg hkF]
      by_cases hko : numSamples g.sample_rate dur -
          numSamples g.sample_rate (1/200) ≤ k
      · rw [if_pos hko, if_neg (by omega), if_pos hko]
      · rw [if_neg hko, if_neg hko]

/-- Witness for C4 (amended): the default dit tone (0.06 s at 44100 Hz) has
2646 samples, starts at phase 0 with envelope 0 (fade-in), and has envelope
1 in the middle of the buffer. -/
theorem C4_tone_shape_witness :
    (generate_tone gExample (3/50)).length = 2646 ∧
    ((generate_tone gExample (3/50)).getD 0 (0, 0)).2 = 0 ∧
    ((generate_tone gExample (3/50)).getD 0 (0, 0)).1 = 0 ∧
    ((generate_tone gExample (3/50)).getD 1000 (0, 0)).1 = 1 := by
  have hN : numSamples gExample.sample_rate (3/50) = 2646 := by
    norm_num [gExample, numSamples, pyTrunc]
    decide
  have hF : numSamples gExample.sample_rate (1/200) = 220 := by
    norm_num [gExample, numSamples, pyTrunc]
    decide
  obtain ⟨h1, h2, h3, h4, h5, h6, h7⟩ := C4_tone_shape gExample (3/50)
  refine ⟨by rw [h1, hN], h5 (by rw [hN]; norm_num), ?_, ?_⟩
  · have h := h7 (by rw [hN, hF]; norm_num) (by rw [hF]; norm_num) 0
      (by rw [hN]; norm_num)
    rw [h, hF, if_pos (by norm_num)]
    norm_num
  · have h := h7 (by rw [hN, hF]; norm_num) (by rw [hF]; norm_num) 1000
      (by rw [hN]; norm_num)
    rw [h, hN, hF, if_neg (by norm_num), if_neg (by norm_num)]

theorem maxAbs_nonneg (l : List ℚ) : 0 ≤ maxAbs l := by
  induction l with
  | nil => exact le_refl 0
  | cons x xs ih => exact le_trans ih (le_max_right _ _)

theorem le_maxAbs (l : List ℚ) : ∀ x ∈ l, |x| ≤ maxAbs l := by
  induction l with
  | nil =>
    intro x hx
    cases hx
  | cons y ys ih =>
    intro x hx
    rcases List.mem_cons.mp hx with rfl | hx
    · exact le_max_left _ _
    · exact le_trans (ih x hx) (le_max_right _ _)

theorem maxAbs_attained (l : List ℚ) :
    maxAbs l = 0 ∨ ∃ x ∈ l, |x| = maxAbs l := by
  induction l with
  | nil => exact Or.inl rfl
  | cons y ys ih =>
    rcases le_total (maxAbs ys) |y| with h | h
    · right
      exact ⟨y, List.mem_cons_self y ys, (max_eq_left h).symm⟩
    · rcases ih with h0 | ⟨x, hx, hxe⟩
      · right
        refine ⟨y, List.mem_cons_self y ys, ?_⟩
        rw [maxAbs, h0, max_eq_left (abs_nonneg y)]
      · right
        refine ⟨x, List.mem_cons_of_mem _ hx, ?_⟩
        rw [maxAbs, max_eq_right h, hxe]

theorem abs_pyTrunc_le (q : ℚ) (C : ℤ) (h : |q| ≤ (C : ℚ)) :
    |pyTrunc q| ≤ C := by
  rcases abs_le.mp h with ⟨h1, h2⟩
  rw [pyTrunc]
  split_ifs with h0
  · rw [abs_of_nonneg (Int.floor_nonneg.mpr h0)]
    calc ⌊q⌋ ≤ ⌊(C : ℚ)⌋ := Int.floor_le_floor h2
    _ = C := Int.floor_intCast C
  · rw [abs_of_nonpos (show ⌈q⌉ ≤ 0 from Int.ceil_le.mpr (by push_cast; linarith))]
    have hle : (-C : ℤ) ≤ ⌈q⌉ := by
      calc (-C : ℤ) = ⌈((-C : ℤ) : ℚ)⌉ := (Int.ceil_intCast _).symm
      _ ≤ ⌈q⌉ := Int.ceil_le_ceil (by push_cast; linarith)
    omega

/-- C3 counterexample: a non-empty all-zero buffer is not skipped — it
reaches the normalization and divides by the zero maximum, so `save_audio`
is not silent-safe for every input buffer. -/
theorem C3_save_audio_cex :
    save_audio [0] = .divByZero ∧ [(0 : ℚ)] ≠ [] := by
  exact ⟨by decide, by decide⟩

/-- C3 (amended): for an empty buffer no file is written; for a non-empty
buffer whose maximum absolute value is zero (all-zero buffer) the code
divides by zero; for every other buffer the samples are normalized by the
maximum absolute value and scaled to ±32767, so the written 16-bit output
has maximum absolute sample magnitude exactly 32767. -/
theorem C3_save_audio_full_scale (audio : List ℚ) :
    (save_audio audio = .skipped ↔ audio = []) ∧
    (audio ≠ [] → maxAbs audio = 0 → save_audio audio = .divByZero) ∧
    (maxAbs audio ≠ 0 →
      ∃ out, save_audio audio = .written out ∧ out.length = audio.length ∧
        (∀ y ∈ out, |y| ≤ 32767) ∧ ∃ y ∈ out, |y| = 32767) := by
  refine ⟨?_, ?_, ?_⟩
  · constructor
    · intro hs
      by_contra hne
      by_cases h2 : maxAbs audio = 0
      · simp only [save_audio, if_neg hne, if_pos h2] at hs
        exact SaveResult.noConfusion hs
      · simp only [save_audio, if_neg hne, if_neg h2] at hs
        exact SaveResult.noConfusion hs
    · intro h
      rw [save_audio, if_pos h]
  · intro h1 h2
    rw [save_audio, if_neg h1, if_pos h2]
  · intro hm
    have hne : audio ≠ [] := by
      intro h
      rw [h] at hm
      exact hm rfl
    have hpos : 0 < maxAbs audio :=
      lt_of_le_of_ne (maxAbs_nonneg audio) (Ne.symm hm)
    refine ⟨_, by rw [save_audio, if_neg hne, if_neg hm], by simp, ?_, ?_⟩
    · intro y hy
      rw [List.mem_map] at hy
      obtain ⟨x, hx, rfl⟩ := hy
      apply abs_pyTrunc_le
      rw [abs_mul, abs_div, abs_of_pos hpos]
      have h1 : |x| ≤ maxAbs audio := le_maxAbs audio x hx
      have h2 : |x| / maxAbs audio ≤ 1 := (div_le_one hpos).mpr h1
      rw [show |(32767:ℚ)| = 32767 by norm_num]
      push_cast
      nlinarith [h2]
    · rcases maxAbs_attained audio with h0 | ⟨x, hx, hxe⟩
      · exact absurd h0 hm
      · refine ⟨pyTrunc (x / maxAbs audio * 32767), List.mem_map_of_mem _ hx, ?_⟩
        rcases (abs_eq (maxAbs_nonneg audio)).mp hxe with h | h
        · rw [h, div_self hm, one_mul]
          rw [show pyTrunc (32767 : ℚ) = 32767 by
            rw [pyTrunc, if_pos (by norm_num),
              show ((32767 : ℚ)) = ((32767 : ℤ) : ℚ) by norm_num, Int.floor_intCast]]
          norm_num
        · rw [h, neg_div, div_self hm, neg_one_mul]
          rw [show pyTrunc (-32767 : ℚ) = -32767 by
            rw [pyTrunc, if_neg (by norm_num),
              show ((-32767 : ℚ)) = ((-32767 : ℤ) : ℚ) by norm_num, Int.ceil_intCast]]
          norm_num

/-- Witness for C3 (amended): the buffer `[0.5, -0.25]` is written as
`[32767, -16383]`, whose maximum absolute sample is exactly 32767. -/
theorem C3_save_audio_full_scale_witness :
    maxAbs [1/2, -1/4] ≠ 0 ∧
    ∃ out, save_audio [1/2, -1/4] = .written out ∧ out.length = 2 ∧
      (∀ y ∈ out, |y| ≤ 32767) ∧ ∃ y ∈ out, |y| = 32767 := by
  have hval : maxAbs [1/2, -1/4] = 1/2 := by
    norm_num [maxAbs, sup_eq_max, max_def, abs_of_nonneg, abs_of_nonpos]
  have hm : maxAbs [1/2, -1/4] ≠ 0 := by
    rw [hval]
    norm_num
  obtain ⟨out, h1, h2, h3, h4⟩ := (C3_save_audio_full_scale [1/2, -1/4]).2.2 hm
  exact ⟨hm, out, h1, by simpa using h2, h3, h4⟩

theorem textChunk_cons_succ (g : MorseGen) (c : Char) (rest : List Char) (i : ℕ) :
    textChunk g (c :: rest) (i + 1) = textChunk g rest i := by
  simp only [textChunk, List.getD_cons_succ, List.length_cons]
  have h : i + 1 + 1 < rest.length + 1 ↔ i + 1 < rest.length := by omega
  simp only [h]

theorem body_code_eq_spec (g : MorseGen) (text : List Char) :
    ((List.range text.length).map (textChunk g text)).flatten = bodySpec g text := by
  induction text with
  | nil => simp [bodySpec]
  | cons c rest ih =>
    rw [List.length_cons, List.range_succ_eq_map]
    simp only [List.map_cons, List.map_map, List.flatten_cons]
    have hmap : (List.range rest.length).map (textChunk g (c :: rest) ∘ Nat.succ) =
        (List.range rest.length).map (textChunk g rest) := by
      apply List.map_congr_left
      intro i _
      exact textChunk_cons_succ g c rest i
    rw [hmap, ih]
    by_cases hc : c = ' '
    · simp [textChunk, bodySpec, hc]
    · cases rest with
      | nil => simp [textChunk, bodySpec, hc]
      | cons d rest' =>
        simp only [textChunk, bodySpec, List.getD_cons_zero, if_neg hc,
          List.length_cons, List.getD_cons_succ]
        by_cases hd : d = ' '
        · simp [hd]
        · simp [hd]

/-- C6: `text_to_morse_audio` is exactly 0.8 s of lead-in silence, then the
spec's left-to-right traversal — a `word_space_time` gap for each literal
space, otherwise the character's audio followed by a `char_space_time` gap
unless the character is last or followed by a space — then 1.2 s of trailing
silence. -/
theorem C6_text_structure (g : MorseGen) (text : List Char) :
    text_to_morse_audio g text =
      generate_silence g (4/5) ++ bodySpec g text ++ generate_silence g (6/5) := by
  rw [text_to_morse_audio, body_code_eq_spec]

/-- C9: unknown-character handling — for every character absent from the
Morse table, `char_to_morse_audio` yields an empty audio contribution
(the non-fatal `UnknownCharacter` outcome), and text encoding continues
with the rest of the string unchanged: the unknown character's step
contributes only its (possible) inter-character gap, after which encoding
proceeds exactly as for the remaining text. -/
theorem C9_unknown_char (g : MorseGen) (c : Char) (hc : morseLookup c = none) :
    char_to_morse_audio g c = [] ∧
    ∀ rest, bodySpec g (c :: rest) =
      (match rest with
        | [] => []
        | d :: _ =>
            if d = ' ' then [] else generate_silence g g.char_space_time) ++
      bodySpec g rest := by
  have hcs : ¬ c = ' ' := by
    intro h
    rw [h] at hc
    exact absurd hc (by decide)
  constructor
  · rw [char_to_morse_audio, hc]
  · intro rest
    simp only [bodySpec, if_neg hcs, char_to_morse_audio, hc]
    rw [List.nil_append]

/-- Witness for C9: `'#'` is not in the table; in the text `#K` it
contributes no tones, only the inter-character gap, and `K` is still
encoded. -/
theorem C9_unknown_char_witness :
    char_to_morse_audio gExample '#' = [] ∧
    bodySpec gExample ['#', 'K'] =
      generate_silence gExample gExample.char_space_time ++
        bodySpec gExample ['K'] := by
  refine ⟨(C9_unknown_char gExample '#' (by decide)).1, ?_⟩
  have h := (C9_unknown_char gExample '#' (by decide)).2 ['K']
  simpa using h

/-- C7: for every non-empty character set and every outcome of the random
draws, `generate_pattern`'s text has length exactly 59, every non-space
character belongs to the character set, the last character is a drawn
character (no trailing space), and — whenever the space character is not
itself in the set, as for every lesson set — the text contains exactly 9
space separators (10 groups of 5 drawn characters). -/
theorem C7_pattern_shape (cl : List Char) (rng : ℕ → ℕ) (hne : cl ≠ []) :
    (patternText cl rng).length = 59 ∧
    (∀ c ∈ patternText cl rng, c ≠ ' ' → c ∈ cl) ∧
    (∃ c, (patternText cl rng).getLast? = some c ∧ c ∈ cl) ∧
    (' ' ∉ cl → (patternText cl rng).count ' ' = 9) :=
  ⟨patternText_length cl rng, patternText_mem cl rng hne,
   patternText_last cl rng hne, patternText_count cl rng hne⟩

/-- Witness for C7, on the lesson-1 character set `KM` with a concrete
oracle. -/
theorem C7_pattern_shape_witness :
    (patternText ['K', 'M'] (fun t => t)).length = 59 ∧
    (patternText ['K', 'M'] (fun t => t)).count ' ' = 9 :=
  ⟨(C7_pattern_shape ['K', 'M'] (fun t => t) (by decide)).1,
   (C7_pattern_shape ['K', 'M'] (fun t => t) (by decide)).2.2.2 (by decide)⟩

/-- C10 (implicit): `generate_pattern`'s `num_chars` parameter has no effect
on the result — group count (10) and group size (5) are hard-coded — and the
text always contains exactly 50 non-space characters. -/
theorem C10_num_chars_unused (g : MorseGen) (cl : List Char)
    (w : Option (List ℚ)) (rng : ℕ → ℕ) (a b : ℕ) :
    generate_pattern g cl a w rng = generate_pattern g cl b w rng ∧
    (∀ i, (patternGroup cl rng i).length = 5) ∧
    (cl ≠ [] → ' ' ∉ cl →
      (patternText cl rng).countP (fun c => c != ' ') = 50) :=
  ⟨rfl, patternGroup_length cl rng, fun hne hsp => patternText_countP cl rng hne hsp⟩

/-- Witness for C10: `num_chars = 50` and `num_chars = 7` produce the same
result on the lesson-1 set, whose pattern has 50 non-space characters. -/
theorem C10_num_chars_unused_witness :
    generate_pattern gExample ['K', 'M'] 50 none (fun t => t) =
      generate_pattern gExample ['K', 'M'] 7 none (fun t => t) ∧
    (patternText ['K', 'M'] (fun t => t)).countP (fun c => c != ' ') = 50 :=
  ⟨(C10_num_chars_unused gExample ['K', 'M'] none (fun t => t) 50 7).1,
   (C10_num_chars_unused gExample ['K', 'M'] none (fun t => t) 50 7).2.2
     (by decide) (by decide)⟩

/-- Witness for C5 (amended), at lesson 3: the set `KMUR` is the 4-symbol
prefix and extends lesson 2's `KMU` by one trailing character. -/
theorem C5_lesson_nesting_witness :
    lessonChars 3 = KOCH_SEQUENCE.take 4 ∧
    (lessonChars 3).length = 4 ∧
    (∃ ch, lessonChars 3 = lessonChars 2 ++ [ch]) ∧
    lessonChars 40 = KOCH_SEQUENCE := by
  obtain ⟨h1, h2, h3, h4⟩ := C5_lesson_nesting 3 (by omega) (by omega)
  exact ⟨h1, h2, h3 (by omega), h4⟩
example : mkMorseGen 20 10 600 44100 = .ok gExample := by
  norm_num [mkMorseGen, gExample]
example : save_audio [0] = .divByZero := by decide
example : save_audio [1/2, -1/4] = .written [32767, -16383] := by
  have hm : maxAbs [1/2, -1/4] = 1/2 := by
    norm_num [maxAbs, sup_eq_max, max_def, abs_of_nonneg, abs_of_nonpos]
  have h1 : pyTrunc ((1 : ℚ)/2 / (1/2) * 32767) = 32767 := by
    simp only [pyTrunc]
    rw [if_pos (by norm_num)]
    norm_num
  have h2 : pyTrunc ((-1 : ℚ)/4 / (1/2) * 32767) = -16383 := by
    simp only [pyTrunc]
    rw [if_neg (by norm_num), Int.ceil_eq_iff]
    norm_num
  simp only [save_audio, hm]
  rw [if_neg (by simp)]
  simp only [List.map, h1, h2]
  rw [if_neg (by norm_num)]
example : (patternText ['K', 'M'] (fun t => t)).length = 59 := by decide
